import Mathlib

/-
Verification of the paged election computation engine of
frame/election-provider-multi-block (file src/frame/election-provider-multi-block/src/mock.rs).

Shallow embedding notes.
The file mock.rs is the only source file present.  It contains:
  * the static electorate (parameter_types Targets / Voters / DesiredTargets, lines 252-292),
  * the data provider MockStaking (targets lines 436-450, voters lines 452-482),
  * the reference pipeline raw_paged_solution (lines 136-205) with its naive
    page_for_voter lookup (lines 166-179) and the page partition loop (lines 181-187),
  * the golden-fixture tests (raw_paged_solution_works_2_page, _3_page,
    pagination_does_not_affect_score, staking_mock_works).
The pieces it calls that live elsewhere in the repository (sp_npos_elections::seq_phragmen,
to_supports, evaluate, the snapshot store driven by the pallet, and the verifier's
feasibility_check_page) are modelled from the spec; every such definition carries a
doc comment starting with "Modelled from the spec:".  Those models are pinned by the
concrete values asserted by the tests inside mock.rs, which they reproduce exactly.

Machine integers: all balances and vote weights in the fixtures are tiny, far below
u64/u128 bounds, so Nat stands in for them; fixed-point PerU16 ratios are represented
by their parts value (a Nat in 0..=65535), exactly as in the wire format.
-/

/-- Account identifier (u64 in the source). -/
abbrev AccountId := Nat

/-- Vote weight / balance (u64 in the source). -/
abbrev VoteWeight := Nat

/-- Page index (u8/u32 PageIndex in the source). -/
abbrev PageIndex := Nat

/-- One voter of the electorate: the (AccountId, VoteWeight, Vec of AccountId)
triple used throughout mock.rs. -/
structure Voter where
  who : AccountId
  weight : VoteWeight
  votes : List AccountId
deriving DecidableEq, Repr

/-- Static target list, mock.rs line 253. -/
def Targets : List AccountId := [10, 20, 30, 40]

/-- Static voter list, mock.rs lines 254-268 (the four last entries are the
self votes of the targets). -/
def Voters : List Voter := [
  ⟨1, 10, [10, 20]⟩,
  ⟨2, 10, [30, 40]⟩,
  ⟨3, 10, [40]⟩,
  ⟨4, 10, [10, 20, 40]⟩,
  ⟨5, 10, [10, 30, 40]⟩,
  ⟨6, 10, [20, 30, 40]⟩,
  ⟨7, 10, [20, 30]⟩,
  ⟨8, 10, [10]⟩,
  ⟨10, 10, [10]⟩,
  ⟨20, 20, [20]⟩,
  ⟨30, 30, [30]⟩,
  ⟨40, 40, [40]⟩]

/-- DesiredTargets parameter, mock.rs line 272. -/
def DesiredTargets : Nat := 2

/-- Errors of the data provider.  The source returns static strings; the two
possible values are "targets shall not have more than a single page" (here
TargetsMoreThanSinglePage) and "Targets too big" (here TargetsTooBig). -/
inductive DataProviderError where
  | TargetsMoreThanSinglePage
  | TargetsTooBig
deriving DecidableEq, Repr

/-- The mutable state MockStaking::voters reads and writes: the static Voters
list and the LastIteratedVoterIndex storage (mock.rs line 269). -/
structure StakingState where
  voters : List Voter
  lastIteratedVoterIndex : Option Nat
deriving DecidableEq, Repr

/-- MockStaking::targets, mock.rs lines 436-450: errors if a page other than 0
is requested or if the target list exceeds the given maximum length. -/
def MockStaking.targets (targets : List AccountId) (maybeMaxLen : Option Nat)
    (remaining : PageIndex) : Except DataProviderError (List AccountId) :=
  if remaining ≠ 0 then .error .TargetsMoreThanSinglePage
  else if (match maybeMaxLen with
           | some maxLen => decide (targets.length > maxLen)
           | none => false) then .error .TargetsTooBig
  else .ok targets

/-- The voter list MockStaking::voters computes before its emptiness check:
skip everything up to the saved iteration cursor, then truncate to the given
maximum length (mock.rs lines 456-466). -/
def MockStaking.votersList (st : StakingState) (maybeMaxLen : Option Nat) : List Voter :=
  let voters0 :=
    match st.lastIteratedVoterIndex with
    | some index => st.voters.drop index
    | none => st.voters
  match maybeMaxLen with
  | some maxLen => voters0.take maxLen
  | none => voters0

/-- MockStaking::voters, mock.rs lines 452-482.  Returns the next chunk of the
voter list together with the new value of LastIteratedVoterIndex.  An empty
chunk is returned as success, before the cursor is touched.  Otherwise, while
remaining > 0 the cursor is set one past the position (in the full list) of
the last returned voter, and on remaining = 0 it is reset to None.  Note that
this function never returns an error. -/
def MockStaking.voters (st : StakingState) (maybeMaxLen : Option Nat)
    (remaining : PageIndex) : Except DataProviderError (List Voter) × Option Nat :=
  let voters := MockStaking.votersList st maybeMaxLen
  if voters.isEmpty then (.ok [], st.lastIteratedVoterIndex)
  else if 0 < remaining then
    (.ok voters,
      match voters.getLast? with
      | some last => some (st.voters.indexOf last + 1)
      | none => none)
  else (.ok voters, none)

/-- Modelled from the spec: the Snapshot Store driver (spec section 6) calls the
electorate provider with a pages-remaining counter counted down to 0.  This
helper performs the calls with remaining = k, k-1, ..., 0, returning the chunks
in call order together with the final provider state. -/
def drive_voters (st : StakingState) (m : Nat) : Nat → List (List Voter) × StakingState
  | 0 =>
    let r := MockStaking.voters st (some m) 0
    ([(r.1.toOption.getD [])], { st with lastIteratedVoterIndex := r.2 })
  | (k+1) =>
    let r := MockStaking.voters st (some m) (k+1)
    let rest := drive_voters { st with lastIteratedVoterIndex := r.2 } m k
    ((r.1.toOption.getD []) :: rest.1, rest.2)

/-- The expected shape of the chunks drive_voters returns: consecutive slices
of at most m voters starting at position p, one per call. -/
def consecutive_chunks (vs : List Voter) (p m : Nat) : Nat → List (List Voter)
  | 0 => [(vs.drop p).take m]
  | (r+1) => (vs.drop p).take m :: consecutive_chunks vs (p + m) m r

/-- Modelled from the spec: the paged voter snapshot (spec sections 3 and 4.1;
mock.rs nested_voter_snapshot, lines 120-129, reads it back from storage).  The
snapshot pallet stores the chunk fetched at pages-remaining r as page r, so
page 0 holds the voters fetched last; the tests raw_paged_solution_works_2_page
(lines 663-679) and _3_page (lines 756-780) assert exactly this layout. -/
def nested_voter_snapshot (pages perPage : Nat) : List (List Voter) :=
  match pages with
  | 0 => []
  | (p+1) => ((drive_voters ⟨Voters, none⟩ perPage p).1).reverse

/-- Unnormalized nonnegative rational, the analogue of sp-arithmetic's
Rational128 that seq_phragmen uses for voter loads and candidate scores;
comparisons are by cross multiplication. -/
structure Q where
  n : Nat
  d : Nat
deriving DecidableEq, Repr

/-- Strict cross-multiplication comparison of Q values. -/
def Q.lt (a b : Q) : Prop := a.n * b.d < b.n * a.d

/-- Non-strict cross-multiplication comparison of Q values. -/
def Q.le (a b : Q) : Prop := a.n * b.d ≤ b.n * a.d

instance (a b : Q) : Decidable (Q.lt a b) := Nat.decLt _ _

instance (a b : Q) : Decidable (Q.le a b) := Nat.decLe _ _

/-- Addition of Q values. -/
def Q.add (a b : Q) : Q := ⟨a.n * b.d + b.n * a.d, a.d * b.d⟩

/-- Multiplication of a Q value by a natural. -/
def Q.mulNat (w : Nat) (a : Q) : Q := ⟨w * a.n, a.d⟩

/-- Division of a Q value by a natural. -/
def Q.divNat (a : Q) (m : Nat) : Q := ⟨a.n, a.d * m⟩

/-- Zero load. -/
def Q.zero : Q := ⟨0, 1⟩

/-- One. -/
def Q.one : Q := ⟨1, 1⟩

/-- A voter together with its current phragmen load. -/
structure VState where
  voter : Voter
  load : Q

/-- Modelled from the spec: the approval stake of a target is the total weight
of the voters approving it (spec section 4.3; sp_npos_elections setup_inputs). -/
def approval_stake (voters : List Voter) (t : AccountId) : Nat :=
  (voters.filter (fun v => v.votes.contains t)).foldl (fun acc v => acc + v.weight) 0

/-- Modelled from the spec: the election-round score of an unelected target,
(1 + sum of weight * load over its approving voters) / approval stake — the
max-min fairness criterion of spec section 4.3. -/
def cand_score (vstates : List VState) (t : AccountId) : Q :=
  Q.divNat
    ((vstates.filter (fun v => v.voter.votes.contains t)).foldl
      (fun acc v => Q.add acc (Q.mulNat v.voter.weight v.load)) Q.one)
    (approval_stake (vstates.map (·.voter)) t)

/-- First element of the list attaining the minimal key, mirroring Rust's
Iterator::min_by_key which returns the first of equally minimal elements —
the fixed, deterministic tie-breaking rule of the solver. -/
def min_by_first {α : Type} (f : α → Q) : List α → Option α
  | [] => none
  | x :: xs =>
    match min_by_first f xs with
    | none => some x
    | some m => if Q.lt (f m) (f x) then some m else some x

/-- Solver state: all voters with their loads, plus the targets elected so
far, in election order. -/
structure SolverState where
  vstates : List VState
  elected : List AccountId

/-- Modelled from the spec: winner selection for one round — the first
candidate (in target-list order) with minimal score (spec section 4.3,
ties broken by lowest target index). -/
def select_winner (vstates : List VState) (cands : List AccountId) : Option AccountId :=
  min_by_first (cand_score vstates) cands

/-- Modelled from the spec: electing w updates the load of every voter
approving w to w's score and appends w to the winner list. -/
def elect_update (s : SolverState) (w : AccountId) : SolverState :=
  let sw := cand_score s.vstates w
  { vstates := s.vstates.map (fun v =>
      if v.voter.votes.contains w then { v with load := sw } else v),
    elected := s.elected ++ [w] }

/-- Modelled from the spec: the main election loop — up to the desired number
of rounds, each electing the first minimal-score target still unelected and
with positive approval stake; stops early when no candidate is eligible. -/
def solve_rounds (targets : List AccountId) : Nat → SolverState → SolverState
  | 0, s => s
  | (k+1), s =>
    let eligible := targets.filter (fun t =>
      ¬ s.elected.contains t ∧ 0 < approval_stake (s.vstates.map (·.voter)) t)
    match select_winner s.vstates eligible with
    | none => s
    | some w => solve_rounds targets k (elect_update s w)

/-- An assignment: a voter with its stake distribution over elected targets,
as fixed-point parts out of 65535 (PerU16). -/
structure Assignment where
  who : AccountId
  distribution : List (AccountId × Nat)
deriving DecidableEq, Repr

/-- Modelled from the spec: the fixed-point ratios of one voter's distribution
over its k elected targets — equal shares of 65535 parts, the remainder folded
into the first share so that the parts sum exactly to one (spec section 4.3:
ratios sum exactly to the voter's stake modulo bounded rounding).  This is
pinned by the test fixtures: every two-target voter is encoded with first part
PerU16::from_parts(32768). -/
def equal_parts (ts : List AccountId) : List (AccountId × Nat) :=
  let k := ts.length
  let base := 65535 / k
  (ts.enum).map (fun p => (p.2, if p.1 = 0 then base + 65535 % k else base))

/-- Modelled from the spec: sp_npos_elections::seq_phragmen (spec section 4.3).
Runs the election loop for the desired number of winners over the flattened
voter list, then produces one assignment per voter having at least one elected
approved target, listing that voter's elected targets in the order of its vote
list.  Voters with no elected approved target produce no assignment. -/
def seq_phragmen (desired : Nat) (targets : List AccountId) (voters : List Voter) :
    List AccountId × List Assignment :=
  let s := solve_rounds targets desired ⟨voters.map (fun v => ⟨v, Q.zero⟩), []⟩
  let winners := s.elected
  let assignments := voters.filterMap (fun v =>
    let ts := v.votes.filter (fun t => winners.contains t)
    if ts.isEmpty then none else some ⟨v.who, equal_parts ts⟩)
  (winners, assignments)

/-- Modelled from the spec: scaling a parts-of-65535 ratio to a stake, rounding
to nearest (sp-arithmetic PerThing multiplication). -/
def scale_part (w p : Nat) : Nat := (2 * w * p + 65535) / (2 * 65535)

/-- Modelled from the spec: normalization of a staked distribution so that it
sums exactly to the voter's stake (assignment_ratio_to_staked_normalized);
any difference is folded into the first entry. -/
def normalize_to_stake (w : Nat) (raw : List (AccountId × Nat)) : List (AccountId × Nat) :=
  match raw with
  | [] => []
  | (t, s) :: rest =>
    let total := s + (rest.map (·.2)).sum
    if total ≤ w then (t, s + (w - total)) :: rest
    else (t, s - (total - w)) :: rest

/-- Stake of an account, looked up in a voter list (helpers::stake_of_fn). -/
def stake_of (voters : List Voter) (who : AccountId) : Nat :=
  ((voters.find? (fun v => v.who == who)).map (·.weight)).getD 0

/-- Modelled from the spec: one voter's ratio distribution converted to staked
amounts summing to its stake. -/
def staked_distribution (w : Nat) (dist : List (AccountId × Nat)) : List (AccountId × Nat) :=
  normalize_to_stake w (dist.map (fun p => (p.1, scale_part w p.2)))

/-- Modelled from the spec: assignment_ratio_to_staked_normalized over a list
of assignments, with stakes looked up in the given voter list. -/
def staked_assignments (voters : List Voter) (as0 : List Assignment) :
    List Assignment :=
  as0.map (fun a => ⟨a.who, staked_distribution (stake_of voters a.who) a.distribution⟩)

/-- A support: total backing stake of a target and the (voter, contribution)
pairs producing it (sp_npos_elections::Support). -/
structure SupportT where
  total : Nat
  voters : List (AccountId × Nat)
deriving DecidableEq, Repr

/-- Modelled from the spec: sp_npos_elections::to_supports — the support table
of a staked assignment set, listing each backed target (in target-list order)
with its contributions in assignment order. -/
def to_supports (targets : List AccountId) (staked : List Assignment) :
    List (AccountId × SupportT) :=
  targets.filterMap (fun t =>
    let contribs := staked.filterMap (fun a => (a.distribution.lookup t).map (a.who, ·))
    if contribs.isEmpty then none
    else some (t, ⟨(contribs.map (·.2)).sum, contribs⟩))

/-- Modelled from the spec: EvaluateSupport::evaluate — the ElectionScore
triple (minimal winner support, sum of winner supports, sum of squared winner
supports) of a support table (spec section 3, Score). -/
def evaluate_supports (sups : List (AccountId × SupportT)) : Nat × Nat × Nat :=
  let totals := sups.map (·.2.total)
  (match totals with
   | [] => 0
   | t :: ts => ts.foldl Nat.min t,
   totals.sum,
   (totals.map (fun x => x * x)).sum)

/-- The naive per-voter page lookup of mock.rs lines 166-179: the index of the
first snapshot page whose voter list contains the voter (enumerate + find_map
in the source; the source unwraps the result, so a voter absent from every
page panics there and yields none here). -/
def page_for_voter (voter_snapshot : List (List Voter)) (voter : AccountId) :
    Option PageIndex :=
  match voter_snapshot with
  | [] => none
  | page :: rest =>
    if page.any (fun v => v.who == voter) then some 0
    else (page_for_voter rest voter).map (· + 1)

/-- The partition loop of mock.rs lines 181-187: push every assignment into
the bucket of its voter's page.  The source unwraps page_for_voter, so an
assignment whose voter is on no page panics there; here it is skipped, which
coincides with the source whenever the lookup succeeds. -/
def partition_assignments (pages : Nat) (snap : List (List Voter))
    (as0 : List Assignment) : List (List Assignment) :=
  as0.foldl (fun buckets a =>
    match page_for_voter snap a.who with
    | some p => buckets.set p ((buckets.getD p []) ++ [a])
    | none => buckets) (List.replicate pages [])

/-- The compact solution page of generate_solution_type (mock.rs lines 70-73):
voters backing one target in votes1 as (voter index, target index); voters
backing two targets in votes2 as (voter index, (target index, PerU16 parts),
last target index); three targets in votes3 likewise with two explicit pairs.
Higher arities (up to 16) do not occur for this electorate. -/
structure TestNposSolution where
  votes1 : List (Nat × Nat) := []
  votes2 : List (Nat × (Nat × Nat) × Nat) := []
  votes3 : List (Nat × ((Nat × Nat) × (Nat × Nat)) × Nat) := []
deriving DecidableEq, Repr

/-- Index of a target in the target snapshot (helpers::target_index_fn_linear). -/
def target_index (targets : List AccountId) (t : AccountId) : Nat := targets.indexOf t

/-- Index of a voter in one page of the voter snapshot
(helpers::voter_index_fn_linear). -/
def voter_index (page_voters : List Voter) (who : AccountId) : Nat :=
  (page_voters.map (·.who)).indexOf who

/-- Modelled from the spec: SolutionOf::from_assignment (spec section 4.5) —
encode one page's assignments with page-local voter indices and global target
indices, bucketed by the number of backed targets; the last target's parts are
implicit.  The source unwraps index lookups, which never fail for assignments
partitioned to their own page. -/
def from_assignment (page_voters : List Voter) (targets : List AccountId)
    (as0 : List Assignment) : TestNposSolution :=
  as0.foldl (fun sol a =>
    let vi := voter_index page_voters a.who
    match a.distribution with
    | [(t, _)] => { sol with votes1 := sol.votes1 ++ [(vi, target_index targets t)] }
    | [(t1, p1), (t2, _)] =>
      { sol with votes2 :=
          sol.votes2 ++ [(vi, (target_index targets t1, p1), target_index targets t2)] }
    | [(t1, p1), (t2, p2), (t3, _)] =>
      { sol with votes3 := sol.votes3 ++
          [(vi, ((target_index targets t1, p1), (target_index targets t2, p2)),
            target_index targets t3)] }
    | _ => sol) {}

/-- The PagedRawSolution of mock.rs line 204: solution pages in snapshot page
order, the round, and the ElectionScore triple. -/
structure PagedRawSolution where
  solution_pages : List TestNposSolution
  round : Nat
  score : Nat × Nat × Nat
deriving DecidableEq, Repr

/-- raw_paged_solution, mock.rs lines 136-205, for a given page count and
voters-per-page: read the nested voter snapshot, flatten it, run seq_phragmen
over the complete electorate, compute the score from the full staked
assignment set before any paging, then partition the assignments by page and
encode each page against its own snapshot page.  The round is 0, the value
MultiBlock::round() has in these tests. -/
def raw_paged_solution (pages perPage : Nat) : PagedRawSolution :=
  let voter_snapshot := nested_voter_snapshot pages perPage
  let target_snapshot := Targets
  let all_voters := voter_snapshot.flatten
  let res := seq_phragmen DesiredTargets target_snapshot all_voters
  let score := evaluate_supports (to_supports target_snapshot
                 (staked_assignments all_voters res.2))
  let paged := partition_assignments pages voter_snapshot res.2
  let solution_pages := List.zipWith
    (fun snap page => from_assignment snap target_snapshot page) voter_snapshot paged
  ⟨solution_pages, 0, score⟩

/-- Errors of the feasibility checker (spec section 7). -/
inductive FeasibilityError where
  | VoterIndexOutOfBounds
  | TargetIndexOutOfBounds
  | ForgedBacking
  | ProportionSumMismatch
  | WinnerCountExceeded
deriving DecidableEq, Repr

/-- Modelled from the spec: decode one encoded vote (spec sections 4.5 and
4.7): bounds-check the voter index and every target index, reject targets the
voter did not originally approve (ForgedBacking), reject explicit parts
summing beyond one (ProportionSumMismatch), and reconstruct the full
distribution with the implicit last share. -/
def decode_entry (page_voters : List Voter) (targets : List AccountId)
    (vi : Nat) (explicit : List (Nat × Nat)) (lastT : Nat) :
    Except FeasibilityError Assignment := do
  let v ← match page_voters.get? vi with
    | some v => pure v
    | none => throw .VoterIndexOutOfBounds
  let dist ← explicit.mapM (fun p => do
    let t ← match targets.get? p.1 with
      | some t => pure t
      | none => throw .TargetIndexOutOfBounds
    if v.votes.contains t then pure (t, p.2) else throw .ForgedBacking)
  let tl ← match targets.get? lastT with
    | some t => pure t
    | none => throw .TargetIndexOutOfBounds
  if ¬ v.votes.contains tl then throw .ForgedBacking
  let sumExplicit := (dist.map (·.2)).sum
  if 65535 < sumExplicit then throw .ProportionSumMismatch
  pure ⟨v.who, dist ++ [(tl, 65535 - sumExplicit)]⟩

/-- Modelled from the spec: VerifierPallet::feasibility_check_page (spec
section 4.7) — decode a solution page against its snapshot page, check the
number of distinct referenced targets against the desired winner count, and
recompute the page's support table from the decoded staked assignments. -/
def feasibility_check_page (sol : TestNposSolution) (page_voters : List Voter)
    (targets : List AccountId) (desired : Nat) :
    Except FeasibilityError (List (AccountId × SupportT)) := do
  let d1 ← sol.votes1.mapM (fun p => decode_entry page_voters targets p.1 [] p.2)
  let d2 ← sol.votes2.mapM (fun p => decode_entry page_voters targets p.1 [p.2.1] p.2.2)
  let d3 ← sol.votes3.mapM (fun p =>
    decode_entry page_voters targets p.1 [p.2.1.1, p.2.1.2] p.2.2)
  let decoded := d1 ++ d2 ++ d3
  let referenced := ((decoded.map (fun a => a.distribution.map (·.1))).flatten).dedup
  if desired < referenced.length then throw .WinnerCountExceeded
  pure (to_supports targets (staked_assignments page_voters decoded))

/-- The per-page support tables of a produced solution, as computed in the
tests (mock.rs lines 713-722): feasibility-check every solution page against
its snapshot page.  A failing page contributes an empty table (the fixtures
all succeed). -/
def page_supports (pages perPage : Nat) : List (List (AccountId × SupportT)) :=
  let paged := raw_paged_solution pages perPage
  let snap := nested_voter_snapshot pages perPage
  List.zipWith
    (fun sol pv => (feasibility_check_page sol pv Targets DesiredTargets).toOption.getD [])
    paged.solution_pages snap

/-- Modelled from the spec: the Support Aggregator (spec section 4.8) — merge
per-page support tables into the global table by summing totals and
concatenating contributions per target. -/
def aggregate_supports (pageSups : List (List (AccountId × SupportT))) :
    List (AccountId × SupportT) :=
  Targets.filterMap (fun t =>
    let per := pageSups.filterMap (fun sups => sups.lookup t)
    if per.isEmpty then none
    else some (t, ⟨(per.map (·.total)).sum, (per.map (·.voters)).flatten⟩))

/-- The electorate claimed by the end-to-end scenario of spec section 8,
written out verbatim from the spec's words (for comparison with the electorate
the code actually snapshots). -/
def C2_claimed_electorate : List Voter := [
  ⟨1, 10, [10, 20]⟩,
  ⟨2, 10, [30, 40]⟩,
  ⟨3, 10, [40]⟩,
  ⟨4, 10, [10, 20, 40]⟩,
  ⟨10, 10, [10]⟩,
  ⟨20, 20, [20]⟩,
  ⟨30, 30, [30]⟩,
  ⟨40, 40, [40]⟩]

/-- Claim C1: paging invariance.  For the fixed mock electorate of 12 voters and 4
targets with 2 desired winners, the Score triple of the solution produced by
raw_paged_solution is identical whether the electorate is split into 1 page of
12 voters, 2 pages of 6, or 3 pages of 4. -/
theorem C1_pagination_does_not_affect_score :
  ((nested_voter_snapshot 1 12).flatten).length = 12
  ∧ ((nested_voter_snapshot 2 6).flatten).length = 12
  ∧ ((nested_voter_snapshot 3 4).flatten).length = 12
  ∧ Targets.length = 4 ∧ DesiredTargets = 2
  ∧ (raw_paged_solution 1 12).score = (raw_paged_solution 2 6).score
  ∧ (raw_paged_solution 2 6).score = (raw_paged_solution 3 4).score := by decide

/-- Claim C2, counterexample: the claim's electorate is not the one the code
snapshots.  With 2 pages of 4 voters the snapshot holds voters 5,6,7,8 on page 0
and 1,2,3,4 on page 1 — the first eight entries of the static Voters list —
whereas the claim (and spec section 8) names the set {1,2,3,4,10,20,30,40}; in
particular voter 10 is on no snapshot page, and voter 5 is in no claimed set. -/
theorem C2_end_to_end_counterexample :
  ((nested_voter_snapshot 2 4).flatten).map (·.who) = [5, 6, 7, 8, 1, 2, 3, 4]
  ∧ C2_claimed_electorate.map (·.who) = [1, 2, 3, 4, 10, 20, 30, 40]
  ∧ (¬ ∃ v ∈ (nested_voter_snapshot 2 4).flatten, v.who = 10)
  ∧ (nested_voter_snapshot 2 4).flatten ≠ C2_claimed_electorate := by decide

/-- Claim C2, amended: for the electorate the 2-pages-of-4 snapshot actually
captures (voters 1..8; page 1 = [1,2,3,4], page 0 = [5,6,7,8]), solving,
partitioning, encoding, decoding and feasibility-checking reproduce exactly the
fixed solution pages, the fixed per-page Support tables and the Score triple
(30, 70, 2500) asserted by the golden fixture raw_paged_solution_works_2_page. -/
theorem C2_end_to_end_amended :
  (nested_voter_snapshot 2 4).map (fun p => p.map (·.who)) = [[5, 6, 7, 8], [1, 2, 3, 4]]
  ∧ (raw_paged_solution 2 4).solution_pages =
      [⟨[(1, 3), (3, 0)], [(0, (0, 32768), 3)], []⟩,
       ⟨[(0, 0), (1, 3), (2, 3)], [(3, (0, 32768), 3)], []⟩]
  ∧ page_supports 2 4 =
      [[(10, ⟨15, [(8, 10), (5, 5)]⟩), (40, ⟨15, [(6, 10), (5, 5)]⟩)],
       [(10, ⟨15, [(1, 10), (4, 5)]⟩), (40, ⟨25, [(2, 10), (3, 10), (4, 5)]⟩)]]
  ∧ (raw_paged_solution 2 4).score = (30, 70, 2500) := by decide

/-- Claim C3: the Score attached to a produced PagedRawSolution is the ordered
triple (minimum winner support, sum of winner supports, sum of squared winner
supports) — evaluate_supports — computed over the support table of the
complete, unpaged assignment set, before any partitioning into pages (first
conjunct, an identity of the pipeline for every configuration); it moreover
equals the evaluation of the global support table reconstructed by aggregating
all feasibility-checked pages, and is the whole-electorate value
((30,70,2500) resp. (55,130,8650)), not that of any single page. -/
theorem C3_score_from_unpaged_supports :
  (∀ pages perPage,
    (raw_paged_solution pages perPage).score =
      evaluate_supports (to_supports Targets
        (staked_assignments ((nested_voter_snapshot pages perPage).flatten)
          (seq_phragmen DesiredTargets Targets
            ((nested_voter_snapshot pages perPage).flatten)).2)))
  ∧ (raw_paged_solution 2 4).score = evaluate_supports (aggregate_supports (page_supports 2 4))
  ∧ (raw_paged_solution 3 4).score = evaluate_supports (aggregate_supports (page_supports 3 4))
  ∧ (raw_paged_solution 2 4).score = (30, 70, 2500)
  ∧ (raw_paged_solution 3 4).score = (55, 130, 8650) :=
⟨fun _ _ => rfl, by decide, by decide, by decide, by decide⟩

/-- Claim C9: snapshot voter pages are indexed in reverse order of provider
iteration — page 0 holds the voters fetched last and the highest page index the
voters listed first by the provider; the paged assignment buckets and the
per-page support tables follow this same page order. -/
theorem C9_reverse_page_order :
  (nested_voter_snapshot 2 4).map (fun p => p.map (·.who)) = [[5, 6, 7, 8], [1, 2, 3, 4]]
  ∧ (nested_voter_snapshot 3 4).map (fun p => p.map (·.who)) =
      [[10, 20, 30, 40], [5, 6, 7, 8], [1, 2, 3, 4]]
  ∧ (partition_assignments 2 (nested_voter_snapshot 2 4)
       (seq_phragmen DesiredTargets Targets ((nested_voter_snapshot 2 4).flatten)).2).map
       (fun p => p.map (·.who)) = [[5, 6, 8], [1, 2, 3, 4]]
  ∧ (partition_assignments 3 (nested_voter_snapshot 3 4)
       (seq_phragmen DesiredTargets Targets ((nested_voter_snapshot 3 4).flatten)).2).map
       (fun p => p.map (·.who)) = [[30, 40], [5, 6, 7], [2, 3, 4]]
  ∧ (page_supports 3 4).map (fun sups => sups.map (·.1)) = [[30, 40], [30, 40], [30, 40]]
  := by decide

/-- Claim C8, counterexample: MockStaking::targets does error when the target
list exceeds the maximum length, but MockStaking::voters does not — asked for
at most 4 of the 12 voters, it returns success with the truncated first four
rather than an error. -/
theorem C8_provider_size_limits_counterexample :
  Voters.length = 12
  ∧ MockStaking.targets Targets (some 2) 0 = .error .TargetsTooBig
  ∧ (MockStaking.voters ⟨Voters, none⟩ (some 4) 0).1 =
      .ok [⟨1, 10, [10, 20]⟩, ⟨2, 10, [30, 40]⟩, ⟨3, 10, [40]⟩, ⟨4, 10, [10, 20, 40]⟩] :=
⟨rfl, rfl, rfl⟩

theorem flatten_replicate_nil {α : Type} (n : Nat) :
    (List.replicate n ([] : List α)).flatten = [] := by
  induction n with
  | zero => rfl
  | succ k ih => simp [List.replicate_succ, ih]

theorem flatten_set_cons_perm {α : Type} :
    ∀ (bs : List (List α)) (p : Nat) (x : α), p < bs.length →
    List.Perm ((bs.set p ((bs.getD p []) ++ [x])).flatten) (x :: bs.flatten) := by
  intro bs
  induction bs with
  | nil => intro p x hp; simp at hp
  | cons b rest ih =>
    intro p x hp
    cases p with
    | zero =>
      simp only [List.getD_cons_zero, List.set_cons_zero, List.flatten_cons]
      rw [List.append_assoc]
      exact List.perm_middle
    | succ q =>
      simp only [List.getD_cons_succ, List.set_cons_succ, List.flatten_cons]
      have h := ih q x (Nat.lt_of_succ_lt_succ hp)
      exact (h.append_left b).trans List.perm_middle

theorem partition_step_perm (snap : List (List Voter)) :
    ∀ (as0 : List Assignment) (bs : List (List Assignment)),
    (∀ a ∈ as0, (page_for_voter snap a.who).isSome = true
      ∧ (page_for_voter snap a.who).getD 0 < bs.length) →
    List.Perm ((as0.foldl (fun buckets a =>
        match page_for_voter snap a.who with
        | some p => buckets.set p ((buckets.getD p []) ++ [a])
        | none => buckets) bs).flatten)
      (bs.flatten ++ as0) := by
  intro as0
  induction as0 with
  | nil => intro bs _; simp
  | cons a rest ih =>
    intro bs h
    obtain ⟨h1, h2⟩ := h a (List.mem_cons_self a rest)
    obtain ⟨p, hp⟩ := Option.isSome_iff_exists.mp h1
    rw [hp] at h2
    simp only [Option.getD_some] at h2
    rw [List.foldl_cons]
    have hred : (match page_for_voter snap a.who with
        | some p => bs.set p ((bs.getD p []) ++ [a])
        | none => bs) = bs.set p ((bs.getD p []) ++ [a]) := by rw [hp]
    rw [hred]
    have hlen : (bs.set p ((bs.getD p []) ++ [a])).length = bs.length := List.length_set bs p _
    have hrec := ih (bs.set p ((bs.getD p []) ++ [a]))
      (fun a' ha' => ⟨(h a' (List.mem_cons_of_mem a ha')).1,
        by rw [hlen]; exact (h a' (List.mem_cons_of_mem a ha')).2⟩)
    have hperm1 : List.Perm ((bs.set p ((bs.getD p []) ++ [a])).flatten) (a :: bs.flatten) :=
      flatten_set_cons_perm bs p a h2
    exact hrec.trans ((hperm1.append_right rest).trans List.perm_middle.symm)

theorem partition_step_length (snap : List (List Voter)) :
    ∀ (as0 : List Assignment) (bs : List (List Assignment)),
    (as0.foldl (fun buckets a =>
        match page_for_voter snap a.who with
        | some p => buckets.set p ((buckets.getD p []) ++ [a])
        | none => buckets) bs).length = bs.length := by
  intro as0
  induction as0 with
  | nil => intro bs; rfl
  | cons a rest ih =>
    intro bs
    rw [List.foldl_cons]
    cases hp : page_for_voter snap a.who with
    | none => exact ih bs
    | some p => rw [show (match some p with
        | some q => bs.set q ((bs.getD q []) ++ [a])
        | none => bs) = bs.set p ((bs.getD p []) ++ [a]) from rfl, ih, List.length_set]

/-- Claim C4: partition completeness.  Whenever every assignment's voter is
found by the Paging Index at a page below the page count, the partition loop of
raw_paged_solution places each assignment into exactly one page bucket: the
concatenation of all per-page sub-lists is a permutation of the original
assignment list (nothing dropped, split or duplicated), and there are exactly
pages buckets — for any page count. -/
theorem C4_partition_completeness (pages : Nat) (snap : List (List Voter))
    (as0 : List Assignment)
    (h : ∀ a ∈ as0, (page_for_voter snap a.who).isSome = true
      ∧ (page_for_voter snap a.who).getD 0 < pages) :
    List.Perm ((partition_assignments pages snap as0).flatten) as0
    ∧ (partition_assignments pages snap as0).length = pages := by
  unfold partition_assignments
  constructor
  · have hperm := partition_step_perm snap as0 (List.replicate pages [])
      (fun a ha => ⟨(h a ha).1, by rw [List.length_replicate]; exact (h a ha).2⟩)
    rw [flatten_replicate_nil] at hperm
    exact hperm
  · rw [partition_step_length, List.length_replicate]

/-- Witness for C4_partition_completeness at the concrete 2-page electorate. -/
theorem C4_partition_completeness_witness :
    (∀ a ∈ (seq_phragmen DesiredTargets Targets ((nested_voter_snapshot 2 4).flatten)).2,
      (page_for_voter (nested_voter_snapshot 2 4) a.who).isSome = true
      ∧ (page_for_voter (nested_voter_snapshot 2 4) a.who).getD 0 < 2)
    ∧ List.Perm ((partition_assignments 2 (nested_voter_snapshot 2 4)
        (seq_phragmen DesiredTargets Targets ((nested_voter_snapshot 2 4).flatten)).2).flatten)
        ((seq_phragmen DesiredTargets Targets ((nested_voter_snapshot 2 4).flatten)).2)
    ∧ (partition_assignments 2 (nested_voter_snapshot 2 4)
        (seq_phragmen DesiredTargets Targets ((nested_voter_snapshot 2 4).flatten)).2).length = 2 :=
  ⟨by decide, C4_partition_completeness 2 (nested_voter_snapshot 2 4)
    (seq_phragmen DesiredTargets Targets ((nested_voter_snapshot 2 4).flatten)).2 (by decide)⟩

/-- Claim C5: Paging Index consistency.  If a voter occurs on page i of the
voter snapshot and on no other page (the snapshot invariant), page_for_voter
returns exactly i, the index of the page that actually contains it. -/
theorem C5_page_for_voter_consistency (snap : List (List Voter)) (v : AccountId) (i : Nat)
    (hi : i < snap.length)
    (hin : (snap.getD i []).any (fun w => w.who == v) = true)
    (huniq : ∀ j, j < snap.length → (snap.getD j []).any (fun w => w.who == v) = true → j = i) :
    page_for_voter snap v = some i := by
  induction snap generalizing i with
  | nil => simp at hi
  | cons page rest ih =>
    by_cases hp : page.any (fun w => w.who == v) = true
    · have h0 : (0 : Nat) = i := huniq 0 (Nat.succ_pos _) (by simpa using hp)
      simp only [page_for_voter, hp, if_true]
      rw [h0]
    · have hi0 : i ≠ 0 := by
        intro hz
        rw [hz] at hin
        exact hp (by simpa using hin)
      obtain ⟨i', rfl⟩ := Nat.exists_eq_succ_of_ne_zero hi0
      have hb : page.any (fun w => w.who == v) = false := by
        cases hq : page.any (fun w => w.who == v) with
        | true => exact absurd hq hp
        | false => rfl
      simp only [page_for_voter, hb, if_false, Bool.false_eq_true]
      have hres := ih i' (Nat.lt_of_succ_lt_succ hi) (by simpa using hin)
        (fun j hj hj2 => by
          have := huniq (j+1) (Nat.succ_lt_succ hj) (by simpa using hj2)
          omega)
      rw [hres]
      rfl

/-- Witness for C5_page_for_voter_consistency: voter 6 lies on page 0 of the 2-page snapshot. -/
theorem C5_page_for_voter_consistency_witness :
    (0 < (nested_voter_snapshot 2 4).length
     ∧ ((nested_voter_snapshot 2 4).getD 0 []).any (fun w => w.who == 6) = true
     ∧ (∀ j, j < (nested_voter_snapshot 2 4).length →
          ((nested_voter_snapshot 2 4).getD j []).any (fun w => w.who == 6) = true → j = 0))
    ∧ page_for_voter (nested_voter_snapshot 2 4) 6 = some 0 :=
  ⟨⟨by decide, by decide, by decide⟩,
   C5_page_for_voter_consistency (nested_voter_snapshot 2 4) 6 0 (by decide) (by decide)
     (by decide)⟩

theorem Q.le_of_not_lt {a b : Q} (h : ¬ Q.lt a b) : Q.le b a := Nat.not_lt.mp h

theorem Q.le_of_lt {a b : Q} (h : Q.lt a b) : Q.le a b := Nat.le_of_lt h

theorem Q.le_trans_pos {a b c : Q} (hb : 0 < b.d) (h1 : Q.le a b) (h2 : Q.le b c) :
    Q.le a c := by
  unfold Q.le at h1 h2 ⊢
  have h1' : a.n * b.d * c.d ≤ b.n * a.d * c.d := Nat.mul_le_mul_right c.d h1
  have h2' : b.n * c.d * a.d ≤ c.n * b.d * a.d := Nat.mul_le_mul_right a.d h2
  have hkey : a.n * c.d * b.d ≤ c.n * a.d * b.d := by
    calc a.n * c.d * b.d = a.n * b.d * c.d := by ring
    _ ≤ b.n * a.d * c.d := h1'
    _ = b.n * c.d * a.d := by ring
    _ ≤ c.n * b.d * a.d := h2'
    _ = c.n * a.d * b.d := by ring
  exact Nat.le_of_mul_le_mul_right hkey hb

theorem min_by_first_eq_none {α : Type} {f : α → Q} {l : List α}
    (h : min_by_first f l = none) : l = [] := by
  cases l with
  | nil => rfl
  | cons x xs =>
    rw [min_by_first] at h
    cases hxs : min_by_first f xs with
    | none => rw [hxs] at h; simp at h
    | some m =>
      rw [hxs] at h
      by_cases hlt : Q.lt (f m) (f x) <;> simp [hlt] at h

theorem min_by_first_spec {α : Type} (f : α → Q) (l : List α) (m : α)
    (hd : ∀ x ∈ l, 0 < (f x).d)
    (h : min_by_first f l = some m) :
    ∃ l1 l2, l = l1 ++ m :: l2
      ∧ (∀ x ∈ l1, Q.lt (f m) (f x))
      ∧ (∀ x ∈ l2, Q.le (f m) (f x)) := by
  induction l generalizing m with
  | nil => simp [min_by_first] at h
  | cons x xs ih =>
    rw [min_by_first] at h
    cases hxs : min_by_first f xs with
    | none =>
      rw [hxs] at h
      have hnil : xs = [] := min_by_first_eq_none hxs
      have hxm : x = m := by simpa using h
      subst hnil
      subst hxm
      exact ⟨[], [], rfl, by simp, by simp⟩
    | some m0 =>
      rw [hxs] at h
      have h' : (if Q.lt (f m0) (f x) then some m0 else some x) = some m := h
      have hdxs : ∀ y ∈ xs, 0 < (f y).d := fun y hy => hd y (List.mem_cons_of_mem x hy)
      obtain ⟨l1, l2, heq, hl1, hl2⟩ := ih m0 hdxs hxs
      by_cases hlt : Q.lt (f m0) (f x)
      · rw [if_pos hlt] at h'
        have hm : m0 = m := by simpa using h'
        subst hm
        refine ⟨x :: l1, l2, by rw [heq]; rfl, ?_, hl2⟩
        intro y hy
        rcases List.mem_cons.mp hy with hy | hy
        · rw [hy]; exact hlt
        · exact hl1 y hy
      · rw [if_neg hlt] at h'
        have hm : x = m := by simpa using h'
        subst hm
        have hm0mem : m0 ∈ xs := by
          rw [heq]; exact List.mem_append_right l1 (List.mem_cons_self m0 l2)
        have hd0 : 0 < (f m0).d := hdxs m0 hm0mem
        have hle : Q.le (f x) (f m0) := Q.le_of_not_lt hlt
        refine ⟨[], xs, rfl, by simp, ?_⟩
        intro y hy
        rw [heq] at hy
        rcases List.mem_append.mp hy with hy | hy
        · exact Q.le_trans_pos hd0 hle (Q.le_of_lt (hl1 y hy))
        · rcases List.mem_cons.mp hy with hy | hy
          · rw [hy]; exact hle
          · exact Q.le_trans_pos hd0 hle (hl2 y hy)

/-- Claim C6: determinism of the solving pipeline.  The embedding of
raw_paged_solution is a pure function, so two invocations on identical snapshot
contents, round and configuration are definitionally equal; the substantive
content is the tie-breaking rule proved here: whenever the solver's winner
selection returns w, the candidate list splits as l1 ++ w :: l2 with every
candidate before w scoring strictly greater and every one after scoring no
less — ties are broken by the lowest target index, a fixed deterministic rule.
The denominator-positivity hypothesis mirrors the nonzero denominators
Rational128 maintains (the solver only scores candidates of positive approval
stake). -/
theorem C6_deterministic_tie_break (vstates : List VState) (cands : List AccountId)
    (w : AccountId)
    (hd : ∀ c ∈ cands, 0 < (cand_score vstates c).d)
    (h : select_winner vstates cands = some w) :
    ∃ l1 l2, cands = l1 ++ w :: l2
      ∧ (∀ c ∈ l1, Q.lt (cand_score vstates w) (cand_score vstates c))
      ∧ (∀ c ∈ l2, Q.le (cand_score vstates w) (cand_score vstates c)) :=
  min_by_first_spec (cand_score vstates) cands w hd h

/-- Witness for C6_deterministic_tie_break: the first round over the full electorate selects target 40. -/
theorem C6_deterministic_tie_break_witness :
    ((∀ c ∈ Targets, 0 < (cand_score (Voters.map (fun v => ⟨v, Q.zero⟩)) c).d)
      ∧ select_winner (Voters.map (fun v => ⟨v, Q.zero⟩)) Targets = some 40)
    ∧ ∃ l1 l2, Targets = l1 ++ 40 :: l2
      ∧ (∀ c ∈ l1, Q.lt (cand_score (Voters.map (fun v => ⟨v, Q.zero⟩)) 40)
          (cand_score (Voters.map (fun v => ⟨v, Q.zero⟩)) c))
      ∧ (∀ c ∈ l2, Q.le (cand_score (Voters.map (fun v => ⟨v, Q.zero⟩)) 40)
          (cand_score (Voters.map (fun v => ⟨v, Q.zero⟩)) c)) :=
  ⟨⟨by decide, by decide⟩,
   C6_deterministic_tie_break (Voters.map (fun v => ⟨v, Q.zero⟩)) Targets 40
     (by decide) (by decide)⟩

/-- Claim C10: when no voters remain to return — an empty electorate, or a
saved cursor at or past the end of the voter list — MockStaking::voters returns
success with an empty list rather than an error, and returns before updating
the saved iteration cursor, which keeps its previous value even when
remaining = 0 would otherwise reset it. -/
theorem C10_empty_voters_success (st : StakingState) (maybeMaxLen : Option Nat)
    (remaining : PageIndex)
    (h : st.voters = [] ∨ (st.lastIteratedVoterIndex.isSome = true
          ∧ st.voters.length ≤ st.lastIteratedVoterIndex.getD 0)) :
    MockStaking.voters st maybeMaxLen remaining = (.ok [], st.lastIteratedVoterIndex) := by
  have hnil : MockStaking.votersList st maybeMaxLen = [] := by
    unfold MockStaking.votersList
    rcases h with h | ⟨h1, h2⟩
    · rw [h]; cases st.lastIteratedVoterIndex <;> cases maybeMaxLen <;> simp
    · obtain ⟨p, hp⟩ := Option.isSome_iff_exists.mp h1
      rw [hp] at h2 ⊢
      simp only [Option.getD_some] at h2
      have hdrop : st.voters.drop p = [] := List.drop_eq_nil_of_le h2
      simp only [hdrop]
      cases maybeMaxLen <;> simp
  unfold MockStaking.voters
  rw [hnil]
  rfl

/-- Witness for C10_empty_voters_success: a cursor past the end of the 12-voter list. -/
theorem C10_empty_voters_success_witness :
    ((⟨Voters, some 12⟩ : StakingState).voters = []
      ∨ ((⟨Voters, some 12⟩ : StakingState).lastIteratedVoterIndex.isSome = true
          ∧ (⟨Voters, some 12⟩ : StakingState).voters.length ≤
              (⟨Voters, some 12⟩ : StakingState).lastIteratedVoterIndex.getD 0))
    ∧ MockStaking.voters ⟨Voters, some 12⟩ (some 4) 1 = (.ok [], some 12) :=
  ⟨Or.inr ⟨rfl, by decide⟩,
   C10_empty_voters_success ⟨Voters, some 12⟩ (some 4) 1 (Or.inr ⟨rfl, by decide⟩)⟩

/-- Claim C8, amended: list_targets errors (TargetsTooBig) whenever the target
list is longer than the requested maximum length; list_voters never errors on
size — it silently truncates, always returning success with at most the
requested number of voters. -/
theorem C8_provider_size_limits_amended :
    (∀ (ts : List AccountId) (maxLen : Nat), maxLen < ts.length →
      MockStaking.targets ts (some maxLen) 0 = .error .TargetsTooBig)
    ∧ (∀ (st : StakingState) (maxLen : Nat) (remaining : PageIndex),
      ∃ l, (MockStaking.voters st (some maxLen) remaining).1 = .ok l ∧ l.length ≤ maxLen) := by
  constructor
  · intro ts maxLen h
    unfold MockStaking.targets
    rw [if_neg (by simp)]
    rw [if_pos]
    simp only [decide_eq_true_eq]
    exact h
  · intro st maxLen remaining
    have hlen : (MockStaking.votersList st (some maxLen)).length ≤ maxLen := by
      unfold MockStaking.votersList
      exact List.length_take_le maxLen _
    unfold MockStaking.voters
    by_cases he : (MockStaking.votersList st (some maxLen)).isEmpty = true
    · rw [if_pos he]
      exact ⟨[], rfl, Nat.zero_le maxLen⟩
    · rw [if_neg he]
      by_cases hr : 0 < remaining
      · rw [if_pos hr]
        exact ⟨MockStaking.votersList st (some maxLen), rfl, hlen⟩
      · rw [if_neg hr]
        exact ⟨MockStaking.votersList st (some maxLen), rfl, hlen⟩

/-- Witness for C8_provider_size_limits_amended at concrete sizes. -/
theorem C8_provider_size_limits_witness :
    (2 < Targets.length ∧ MockStaking.targets Targets (some 2) 0 = .error .TargetsTooBig)
    ∧ (∃ l, (MockStaking.voters ⟨Voters, none⟩ (some 4) 2).1 = .ok l ∧ l.length ≤ 4) :=
  ⟨⟨by decide, C8_provider_size_limits_amended.1 Targets 2 (by decide)⟩,
   C8_provider_size_limits_amended.2 ⟨Voters, none⟩ 4 2⟩

theorem votersList_eq (vs : List Voter) (cur : Option Nat) (m : Nat) :
    MockStaking.votersList ⟨vs, cur⟩ (some m) = (vs.drop (cur.getD 0)).take m := by
  cases cur <;> simp [MockStaking.votersList]

theorem voters_call (vs : List Voter) (cur : Option Nat) (m r : Nat)
    (hnd : vs.Nodup) (hp : cur.getD 0 < vs.length) (hm : 0 < m) :
    MockStaking.voters ⟨vs, cur⟩ (some m) r =
      (.ok ((vs.drop (cur.getD 0)).take m),
        if 0 < r then some (cur.getD 0 + ((vs.drop (cur.getD 0)).take m).length)
        else none) := by
  have hL := votersList_eq vs cur m
  have hlen : ((vs.drop (cur.getD 0)).take m).length = min m (vs.length - cur.getD 0) := by
    rw [List.length_take, List.length_drop]
  have hpos : 0 < ((vs.drop (cur.getD 0)).take m).length := by rw [hlen]; omega
  have hne : ((vs.drop (cur.getD 0)).take m).isEmpty = false := by
    cases hc : (vs.drop (cur.getD 0)).take m with
    | nil => rw [hc] at hpos; simp at hpos
    | cons a l => rfl
  have h1 : ((vs.drop (cur.getD 0)).take m).length - 1 <
      ((vs.drop (cur.getD 0)).take m).length := by omega
  have h2 : cur.getD 0 + (((vs.drop (cur.getD 0)).take m).length - 1) < vs.length := by
    rw [hlen] at h1 ⊢
    omega
  have hgetelem : ((vs.drop (cur.getD 0)).take m).get
        ⟨((vs.drop (cur.getD 0)).take m).length - 1, h1⟩ =
      vs.get ⟨cur.getD 0 + (((vs.drop (cur.getD 0)).take m).length - 1), h2⟩ := by
    simp only [List.get_eq_getElem, List.getElem_take, List.getElem_drop]
  have hlast : ((vs.drop (cur.getD 0)).take m).getLast? =
      some (vs.get ⟨cur.getD 0 + (((vs.drop (cur.getD 0)).take m).length - 1), h2⟩) := by
    rw [List.getLast?_eq_getElem?, List.getElem?_eq_getElem h1, ← hgetelem]
    simp only [List.get_eq_getElem]
  have hidx : vs.indexOf (vs.get
        ⟨cur.getD 0 + (((vs.drop (cur.getD 0)).take m).length - 1), h2⟩) =
      cur.getD 0 + (((vs.drop (cur.getD 0)).take m).length - 1) := by
    simp only [List.get_eq_getElem]
    exact List.indexOf_getElem hnd _ _
  unfold MockStaking.voters
  by_cases hr : 0 < r
  · simp only [hL, hne, Bool.false_eq_true, if_false, if_pos hr, hlast, hidx]
    have heq : cur.getD 0 + (((vs.drop (cur.getD 0)).take m).length - 1) + 1 =
        cur.getD 0 + ((vs.drop (cur.getD 0)).take m).length := by omega
    rw [heq]
  · simp only [hL, hne, Bool.false_eq_true, if_false, if_neg hr]

theorem drive_voters_spec : ∀ (r : Nat) (vs : List Voter) (cur : Option Nat) (m : Nat),
    vs.Nodup → 0 < m → cur.getD 0 + r * m < vs.length →
    vs.length ≤ cur.getD 0 + (r + 1) * m →
    drive_voters ⟨vs, cur⟩ m r = (consecutive_chunks vs (cur.getD 0) m r, ⟨vs, none⟩) := by
  intro r
  induction r with
  | zero =>
    intro vs cur m hnd hm hlt hle
    have hplt : cur.getD 0 < vs.length := by omega
    have hcall := voters_call vs cur m 0 hnd hplt hm
    rw [drive_voters, hcall]
    rfl
  | succ k ih =>
    intro vs cur m hnd hm hlt hle
    have hmk : m ≤ (k + 1) * m := Nat.le_mul_of_pos_left m (Nat.succ_pos k)
    have hplt : cur.getD 0 < vs.length :=
      Nat.lt_of_le_of_lt (Nat.le_add_right _ _) hlt
    have hcall := voters_call vs cur m (k + 1) hnd hplt hm
    have hfull : ((vs.drop (cur.getD 0)).take m).length = m := by
      rw [List.length_take, List.length_drop]
      have h1 : cur.getD 0 + (k + 1) * m < vs.length := hlt
      generalize hx : (k + 1) * m = X at h1 hmk
      omega
    rw [drive_voters, hcall]
    simp only [Nat.succ_pos, if_pos, Except.toOption, Option.getD_some, hfull]
    have hrec := ih vs (some (cur.getD 0 + m)) m hnd hm
      (by
        simp only [Option.getD_some]
        have : (k + 1) * m = k * m + m := Nat.succ_mul k m
        generalize hx : k * m = X at this hlt
        rw [this] at hlt
        omega)
      (by
        simp only [Option.getD_some]
        have e1 : (k + 1 + 1) * m = m + (k + 1) * m := by ring
        rw [e1] at hle
        generalize hx : (k + 1) * m = X at hle
        omega)
    simp only [Option.getD_some] at hrec
    rw [hrec]
    rfl

theorem consecutive_chunks_flatten (vs : List Voter) (m : Nat) : ∀ (r p : Nat),
    (consecutive_chunks vs p m r).flatten = (vs.drop p).take ((r + 1) * m) := by
  intro r
  induction r with
  | zero =>
    intro p
    simp [consecutive_chunks, Nat.one_mul]
  | succ k ih =>
    intro p
    rw [consecutive_chunks, List.flatten_cons, ih (p + m)]
    have hdd : (vs.drop p).drop m = vs.drop (p + m) := by
      rw [List.drop_drop, Nat.add_comm]
    have e : (k + 1 + 1) * m = m + (k + 1) * m := by ring
    rw [e, List.take_add, hdd]

/-- Claim C7: provider pagination protocol.  Part one: a call of
MockStaking::voters with maximum length m and saved cursor position p (none
standing for 0) returns exactly the next consecutive chunk take m of drop p of
the voter list, in original order; the new cursor is one past the last returned
voter (p plus the chunk length) while remaining > 0, and none on the call with
remaining = 0.  Part two: driving the provider with remaining counted down from
r to 0 over a duplicate-free voter list whose length lies in (r*m, (r+1)*m]
returns the consecutive disjoint chunks of m voters which jointly flatten back
to the whole list, and ends with the cursor cleared. -/
theorem C7_provider_pagination_protocol :
    (∀ (vs : List Voter) (cur : Option Nat) (m r : Nat),
      vs.Nodup → cur.getD 0 < vs.length → 0 < m →
      MockStaking.voters ⟨vs, cur⟩ (some m) r =
        (.ok ((vs.drop (cur.getD 0)).take m),
          if 0 < r then some (cur.getD 0 + ((vs.drop (cur.getD 0)).take m).length)
          else none))
    ∧ (∀ (vs : List Voter) (m r : Nat),
      vs.Nodup → 0 < m → r * m < vs.length → vs.length ≤ (r + 1) * m →
      drive_voters ⟨vs, none⟩ m r = (consecutive_chunks vs 0 m r, ⟨vs, none⟩)
      ∧ ((drive_voters ⟨vs, none⟩ m r).1).flatten = vs) := by
  constructor
  · exact fun vs cur m r h1 h2 h3 => voters_call vs cur m r h1 h2 h3
  · intro vs m r h1 h2 h3 h4
    have hd := drive_voters_spec r vs none m h1 h2 (by simpa) (by simpa)
    refine ⟨hd, ?_⟩
    rw [hd]
    show (consecutive_chunks vs ((none : Option Nat).getD 0) m r).flatten = vs
    rw [consecutive_chunks_flatten]
    show (vs.drop 0).take ((r + 1) * m) = vs
    rw [List.drop_zero]
    exact List.take_of_length_le h4

/-- Witness for C7_provider_pagination_protocol: three calls of 4 voters each cover the 12-voter list. -/
theorem C7_provider_pagination_protocol_witness :
    (Voters.Nodup ∧ 0 < 4 ∧ 2 * 4 < Voters.length ∧ Voters.length ≤ (2 + 1) * 4)
    ∧ drive_voters ⟨Voters, none⟩ 4 2 = (consecutive_chunks Voters 0 4 2, ⟨Voters, none⟩)
    ∧ ((drive_voters ⟨Voters, none⟩ 4 2).1).flatten = Voters :=
  ⟨⟨by decide, by decide, by decide, by decide⟩,
   C7_provider_pagination_protocol.2 Voters 4 2 (by decide) (by decide) (by decide)
     (by decide)⟩

/-- Witness for C3_score_from_unpaged_supports: its pipeline identity at the 2-page configuration. -/
theorem C3_score_witness :
    (raw_paged_solution 2 4).score =
      evaluate_supports (to_supports Targets
        (staked_assignments ((nested_voter_snapshot 2 4).flatten)
          (seq_phragmen DesiredTargets Targets
            ((nested_voter_snapshot 2 4).flatten)).2)) :=
  C3_score_from_unpaged_supports.1 2 4
